import Mathlib

/-!
# Runtime definitions (`runtime/defs.h`): stacks and trap frames

A shallow embedding of the stack layout, `stack_init_to_rsp`, the trap-frame
argument accessors and the stack allocation wrappers, with the properties the
specification states about them.

Machine words and addresses are natural numbers; the one place where an
address is converted to `uint64_t` reduces modulo `2 ^ 64`.
-/

namespace Runtime

/-! ## Constant limits and layout -/

/-- Modelled from the spec: the constant `KB` of `base/stddef.h`, which is not
part of the sources at hand; one kilobyte is 1024 bytes. -/
def KB : Nat := 1024

/-- The size in bytes of `uintptr_t` (and of `uint64_t`) on x86-64. -/
def sizeof_uintptr_t : Nat := 8

/-- The modulus of `uint64_t` arithmetic. -/
def UINT64_MOD : Nat := 2 ^ 64

/-- Macro `#define RUNTIME_STACK_SIZE 128 * KB`. -/
def RUNTIME_STACK_SIZE : Nat := 128 * KB

/-- Macro `#define RUNTIME_GUARD_SIZE 128 * KB`. -/
def RUNTIME_GUARD_SIZE : Nat := 128 * KB

/-- Macro `#define STACK_PTR_SIZE (RUNTIME_STACK_SIZE / sizeof(uintptr_t))`; the
macro body is substituted textually, so the division applies to `128 * KB`. -/
def STACK_PTR_SIZE : Nat := 128 * KB / sizeof_uintptr_t

/-- Macro `#define GUARD_PTR_SIZE (RUNTIME_GUARD_SIZE / sizeof(uintptr_t))`. -/
def GUARD_PTR_SIZE : Nat := 128 * KB / sizeof_uintptr_t

/-! ## Trap frame support -/

/-- The type `struct thread_tf`: the argument registers, the callee-saved
registers and the special-purpose registers, in declaration order. -/
structure thread_tf where
  rdi : Nat
  rsi : Nat
  rdx : Nat
  rcx : Nat
  r8 : Nat
  r9 : Nat
  r10 : Nat
  r11 : Nat
  rbx : Nat
  rbp : Nat
  r12 : Nat
  r13 : Nat
  r14 : Nat
  r15 : Nat
  rax : Nat
  rip : Nat
  rsp : Nat
deriving DecidableEq, Repr

/-- The names of the members of `struct thread_tf`, in declaration order. -/
inductive tf_field where
  | rdi | rsi | rdx | rcx | r8 | r9 | r10 | r11
  | rbx | rbp | r12 | r13 | r14 | r15
  | rax | rip | rsp
deriving DecidableEq, Repr

/-- The seventeen members of `struct thread_tf`. -/
def tf_fields : List tf_field :=
  [.rdi, .rsi, .rdx, .rcx, .r8, .r9, .r10, .r11, .rbx, .rbp, .r12, .r13, .r14, .r15,
   .rax, .rip, .rsp]

/-- An lvalue inside a trap frame: how an expression such as `tf->rdi` is read
and how it is assigned. -/
structure tf_lvalue where
  get : thread_tf → Nat
  set : thread_tf → Nat → thread_tf

/-- The member access `tf->f`. -/
def member : tf_field → tf_lvalue
  | .rdi => ⟨fun tf => tf.rdi, fun tf v => { tf with rdi := v }⟩
  | .rsi => ⟨fun tf => tf.rsi, fun tf v => { tf with rsi := v }⟩
  | .rdx => ⟨fun tf => tf.rdx, fun tf v => { tf with rdx := v }⟩
  | .rcx => ⟨fun tf => tf.rcx, fun tf v => { tf with rcx := v }⟩
  | .r8 => ⟨fun tf => tf.r8, fun tf v => { tf with r8 := v }⟩
  | .r9 => ⟨fun tf => tf.r9, fun tf v => { tf with r9 := v }⟩
  | .r10 => ⟨fun tf => tf.r10, fun tf v => { tf with r10 := v }⟩
  | .r11 => ⟨fun tf => tf.r11, fun tf v => { tf with r11 := v }⟩
  | .rbx => ⟨fun tf => tf.rbx, fun tf v => { tf with rbx := v }⟩
  | .rbp => ⟨fun tf => tf.rbp, fun tf v => { tf with rbp := v }⟩
  | .r12 => ⟨fun tf => tf.r12, fun tf v => { tf with r12 := v }⟩
  | .r13 => ⟨fun tf => tf.r13, fun tf v => { tf with r13 := v }⟩
  | .r14 => ⟨fun tf => tf.r14, fun tf v => { tf with r14 := v }⟩
  | .r15 => ⟨fun tf => tf.r15, fun tf v => { tf with r15 := v }⟩
  | .rax => ⟨fun tf => tf.rax, fun tf v => { tf with rax := v }⟩
  | .rip => ⟨fun tf => tf.rip, fun tf v => { tf with rip := v }⟩
  | .rsp => ⟨fun tf => tf.rsp, fun tf v => { tf with rsp := v }⟩

/-- Macro `#define ARG0(tf) ((tf)->rdi)`. -/
def ARG0 : tf_lvalue := ⟨fun tf => tf.rdi, fun tf v => { tf with rdi := v }⟩

/-- Macro `#define ARG1(tf) ((tf)->rsi)`. -/
def ARG1 : tf_lvalue := ⟨fun tf => tf.rsi, fun tf v => { tf with rsi := v }⟩

/-- Macro `#define ARG2(tf) ((tf)->rdx)`. -/
def ARG2 : tf_lvalue := ⟨fun tf => tf.rdx, fun tf v => { tf with rdx := v }⟩

/-- Macro `#define ARG3(tf) ((tf)->rcx)`. -/
def ARG3 : tf_lvalue := ⟨fun tf => tf.rcx, fun tf v => { tf with rcx := v }⟩

/-- Macro `#define ARG4(tf) ((tf)->r8)`. -/
def ARG4 : tf_lvalue := ⟨fun tf => tf.r8, fun tf v => { tf with r8 := v }⟩

/-- Macro `#define ARG5(tf) ((tf)->r9)`. -/
def ARG5 : tf_lvalue := ⟨fun tf => tf.r9, fun tf v => { tf with r9 := v }⟩

/-- The accessor `ARGi` for `i` from 0 to 5. -/
def ARG : Fin 6 → tf_lvalue
  | 0 => ARG0
  | 1 => ARG1
  | 2 => ARG2
  | 3 => ARG3
  | 4 => ARG4
  | 5 => ARG5

/-- The register that carries the `i`-th integer argument in the System V
x86-64 calling convention. -/
def sysv_arg_register : Fin 6 → tf_field
  | 0 => .rdi
  | 1 => .rsi
  | 2 => .rdx
  | 3 => .rcx
  | 4 => .r8
  | 5 => .r9

/-! ## Stack support -/

/-- The type `struct stack`: the usable words followed by the guard words. -/
structure stack where
  usable : Fin STACK_PTR_SIZE → Nat
  guard : Fin GUARD_PTR_SIZE → Nat

/-- Byte offset of the member `usable` in `struct stack` (the first member). -/
def offsetof_usable : Nat := 0

/-- Byte size of the member `usable`: `STACK_PTR_SIZE` elements of `uintptr_t`. -/
def sizeof_usable : Nat := STACK_PTR_SIZE * sizeof_uintptr_t

/-- Byte offset of the member `guard`: it follows `usable`, and both arrays
have the same element type, so no padding is inserted. -/
def offsetof_guard : Nat := offsetof_usable + sizeof_usable

/-- Byte size of the member `guard`. -/
def sizeof_guard : Nat := GUARD_PTR_SIZE * sizeof_uintptr_t

/-- The value of `sizeof(struct stack)`. -/
def sizeof_stack : Nat := offsetof_guard + sizeof_guard

/-- The address `&s->usable[i]` for a stack at address `s`. -/
def usable_addr (s i : Nat) : Nat := s + offsetof_usable + i * sizeof_uintptr_t

/-- The address `&s->guard[j]` for a stack at address `s`. -/
def guard_addr (s j : Nat) : Nat := s + offsetof_guard + j * sizeof_uintptr_t

/-- The conversion `(uint64_t)p` of an address. -/
def to_uint64 (p : Nat) : Nat := p % UINT64_MOD

/-- A stack whose words are all zero, for evaluating the definitions. -/
def zero_stack : stack := ⟨fun _ => 0, fun _ => 0⟩

/-- The index `STACK_PTR_SIZE - 1` of the last usable word. -/
def top_index : Fin STACK_PTR_SIZE := ⟨STACK_PTR_SIZE - 1, by decide⟩

/-- The value given to the local `rsp`:
`(uint64_t)&s->usable[STACK_PTR_SIZE - 1]`. -/
def top_rsp (s : Nat) : Nat := to_uint64 (usable_addr s (STACK_PTR_SIZE - 1))

/-- Modelled from the spec: the macro `assert` of `base/assert.h`, which is not
part of the sources at hand; an invariant violation is fatal, so a failed
assertion ends the call without a result. -/
def assert (cond : Bool) : Option Unit := if cond then some () else none

/-- The call `stack_init_to_rsp(s, exit_fn)` for a stack at address `s` with
contents `st`: the contents after the store, and the returned stack pointer, or
`none` when the assertion fails. The handler is an address and the cast to
`uintptr_t` keeps its value. -/
def stack_init_to_rsp (s : Nat) (st : stack) (exit_fn : Nat) : stack × Option Nat :=
  let st1 : stack := { st with usable := Function.update st.usable top_index exit_fn }
  let rsp := top_rsp s
  (st1, (assert (decide (rsp % 16 = 8))).bind fun _ => some rsp)

/-- A word-sized load from address `addr` of a stack at address `s` with
contents `st`: a word of the usable area is read; the guard area is unreadable
and other addresses are not part of the stack. -/
def stack_load (s : Nat) (st : stack) (addr : Nat) : Option Nat :=
  if h : s + offsetof_usable ≤ addr ∧ (addr - (s + offsetof_usable)) % sizeof_uintptr_t = 0
      ∧ (addr - (s + offsetof_usable)) / sizeof_uintptr_t < STACK_PTR_SIZE then
    some (st.usable ⟨(addr - (s + offsetof_usable)) / sizeof_uintptr_t, h.2.2⟩)
  else none

/-! ## Stack allocation -/

/-- What the stack wrappers use from outside `defs.h`, over a program state
`W`: the address of `stack_pt` as seen by each execution context (it is
declared `extern __thread`), and the two operations of `base/tcache.h`. -/
structure runtime_env (W : Type) where
  stack_pt : Nat → Nat
  tcache_alloc : Nat → W → Option Nat × W
  tcache_free : Nat → Nat → W → W

/-- The call `stack_alloc()` made by context `ctx` in state `w`: the returned
handle, if any, and the state after the call. -/
def stack_alloc {W : Type} (env : runtime_env W) (ctx : Nat) (w : W) : Option Nat × W :=
  env.tcache_alloc (env.stack_pt ctx) w

/-- The call `stack_free(s)` made by context `ctx` in state `w`: the state
after the call. -/
def stack_free {W : Type} (env : runtime_env W) (ctx : Nat) (s : Nat) (w : W) : W :=
  env.tcache_free (env.stack_pt ctx) s w

/-- Modelled from the spec: the state of the caching allocator of
`base/tcache.h`, which is not part of the sources at hand: one cache of stack
handles per execution context, keyed by the address of its `stack_pt`, and the
backing global pool. -/
structure pool_state where
  cache : Nat → List Nat
  pool : List Nat

/-- Modelled from the spec: the operation `tcache_alloc` of `base/tcache.h`,
which is not part of the sources at hand: a handle is taken from the calling
context's cache, or from the backing global pool when that cache is empty, and
the call fails only when both are exhausted. -/
def tcache_alloc (pt : Nat) (w : pool_state) : Option Nat × pool_state :=
  match w.cache pt with
  | h :: t => (some h, { w with cache := Function.update w.cache pt t })
  | [] =>
    match w.pool with
    | h :: t => (some h, { w with pool := t })
    | [] => (none, w)

/-- Modelled from the spec: the operation `tcache_free` of `base/tcache.h`,
which is not part of the sources at hand: the handle is returned to the calling
context's cache. -/
def tcache_free (pt : Nat) (item : Nat) (w : pool_state) : pool_state :=
  { w with cache := Function.update w.cache pt (item :: w.cache pt) }

/-- The stack wrappers over the modelled allocator; `stack_pt` gives each
context the address of its cache. -/
def pool_env (stack_pt : Nat → Nat) : runtime_env pool_state :=
  ⟨stack_pt, tcache_alloc, tcache_free⟩

/-- The stacks at addresses `a` and `b` do not overlap in memory. -/
def stacks_disjoint (a b : Nat) : Prop := a + sizeof_stack ≤ b ∨ b + sizeof_stack ≤ a

instance (a b : Nat) : Decidable (stacks_disjoint a b) := by
  unfold stacks_disjoint; infer_instance

/-- One call on the stack manager by an execution context. -/
inductive stack_call where
  | alloc (ctx : Nat)
  | free (ctx : Nat) (s : Nat)
deriving DecidableEq, Repr

/-- The allocator state together with the handles that are live: returned
by `stack_alloc` and not freed since. -/
structure manager_state where
  w : pool_state
  live : List Nat

/-- The state before any call: the caches are empty, the global pool holds the
handles `free_stacks`, and no handle is live. -/
def manager_init (free_stacks : List Nat) : manager_state :=
  ⟨⟨fun _ => [], free_stacks⟩, []⟩

/-- The effect of one call: a returned handle becomes live, a freed handle is
no longer live. -/
def manager_step (stack_pt : Nat → Nat) (x : manager_state) : stack_call → manager_state
  | .alloc ctx =>
    match stack_alloc (pool_env stack_pt) ctx x.w with
    | (some s, w1) => ⟨w1, s :: x.live⟩
    | (none, w1) => ⟨w1, x.live⟩
  | .free ctx s => ⟨stack_free (pool_env stack_pt) ctx s x.w, x.live.erase s⟩

/-- The state after a sequence of calls. -/
def manager_run (stack_pt : Nat → Nat) (x : manager_state) : List stack_call → manager_state
  | [] => x
  | c :: rest => manager_run stack_pt (manager_step stack_pt x c) rest

/-- The calling discipline: every `stack_free` is given a handle that is live
at that point, so a handle is freed only after it was allocated and at most
once per allocation. -/
def disciplined (stack_pt : Nat → Nat) (x : manager_state) : List stack_call → Bool
  | [] => true
  | .alloc ctx :: rest => disciplined stack_pt (manager_step stack_pt x (.alloc ctx)) rest
  | .free ctx s :: rest =>
    decide (s ∈ x.live) && disciplined stack_pt (manager_step stack_pt x (.free ctx s)) rest

/-- Every handle is in one place only, and the stacks of any two handles do not
overlap: within and across the live handles, the caches and the global pool. -/
structure manager_inv (x : manager_state) : Prop where
  live : x.live.Pairwise stacks_disjoint
  pool : x.w.pool.Pairwise stacks_disjoint
  cache : ∀ p, (x.w.cache p).Pairwise stacks_disjoint
  live_pool : ∀ a ∈ x.live, ∀ b ∈ x.w.pool, stacks_disjoint a b
  live_cache : ∀ p, ∀ a ∈ x.live, ∀ b ∈ x.w.cache p, stacks_disjoint a b
  cache_pool : ∀ p, ∀ a ∈ x.w.cache p, ∀ b ∈ x.w.pool, stacks_disjoint a b
  cache_cache : ∀ p q, p ≠ q → ∀ a ∈ x.w.cache p, ∀ b ∈ x.w.cache q, stacks_disjoint a b

/-! ## Basic facts -/

theorem STACK_PTR_SIZE_pos : STACK_PTR_SIZE - 1 < STACK_PTR_SIZE := by decide

theorem top_rsp_eq (s : Nat) : top_rsp s = (s + 131064) % 2 ^ 64 := by
  simp [top_rsp, to_uint64, usable_addr, offsetof_usable, STACK_PTR_SIZE, KB,
    sizeof_uintptr_t, UINT64_MOD]

theorem stack_init_to_rsp_snd (s : Nat) (st : stack) (exit_fn : Nat) :
    (stack_init_to_rsp s st exit_fn).2
      = if top_rsp s % 16 = 8 then some (top_rsp s) else none := by
  unfold stack_init_to_rsp assert
  by_cases h : top_rsp s % 16 = 8 <;> simp [h]

theorem stack_init_to_rsp_fst (s : Nat) (st : stack) (exit_fn : Nat) :
    (stack_init_to_rsp s st exit_fn).1
      = { st with usable := Function.update st.usable top_index exit_fn } := rfl

theorem stack_init_to_rsp_top (s : Nat) (st : stack) (exit_fn : Nat) :
    (stack_init_to_rsp s st exit_fn).1.usable top_index = exit_fn := by
  rw [stack_init_to_rsp_fst]
  exact Function.update_same top_index exit_fn st.usable

theorem top_rsp_mod16 (s : Nat) : top_rsp s % 16 = (s + 8) % 16 := by
  rw [top_rsp_eq]; omega

/-! ## Properties -/

/-- C3: the layout constants agree with the configured sizes: the usable area
is `STACK_PTR_SIZE` words of 8 bytes, 131072 bytes in all, with no remainder in
the division; the guard has as many words as the usable area, 16384; the guard
array starts at byte offset 131072, where the usable array ends; and the whole
`struct stack` takes 262144 bytes. -/
theorem C3_layout_constants :
    sizeof_uintptr_t = 8 ∧ KB = 1024
    ∧ STACK_PTR_SIZE * 8 = RUNTIME_STACK_SIZE ∧ RUNTIME_STACK_SIZE = 131072
    ∧ RUNTIME_STACK_SIZE % sizeof_uintptr_t = 0
    ∧ GUARD_PTR_SIZE * 8 = RUNTIME_GUARD_SIZE
    ∧ GUARD_PTR_SIZE = STACK_PTR_SIZE ∧ STACK_PTR_SIZE = 16384
    ∧ offsetof_guard = 131072
    ∧ offsetof_guard = offsetof_usable + sizeof_usable
    ∧ (∀ s, guard_addr s 0 = usable_addr s STACK_PTR_SIZE)
    ∧ (∀ s, guard_addr s 0 = s + 131072)
    ∧ sizeof_stack = 262144 := by
  refine ⟨rfl, rfl, by decide, by decide, by decide, by decide, rfl, by decide, by decide, rfl,
    ?_, ?_, by decide⟩
  · intro s
    simp only [guard_addr, usable_addr, offsetof_guard, sizeof_usable]
    omega
  · intro s
    simp [guard_addr, offsetof_guard, offsetof_usable, sizeof_usable, STACK_PTR_SIZE, KB,
      sizeof_uintptr_t]

/-- C1: for every stack whose base address is 16-byte aligned, and every exit
handler, `stack_init_to_rsp` passes its assertion and returns a stack pointer
`rsp` with `rsp % 16 = 8`. -/
theorem C1_rsp_call_aligned (s : Nat) (st : stack) (exit_fn : Nat) (h : s % 16 = 0) :
    ∃ rsp, (stack_init_to_rsp s st exit_fn).2 = some rsp ∧ rsp % 16 = 8 := by
  have h8 : top_rsp s % 16 = 8 := by rw [top_rsp_mod16]; omega
  exact ⟨top_rsp s, by rw [stack_init_to_rsp_snd, if_pos h8], h8⟩

theorem C1_rsp_call_aligned_witness :
    4096 % 16 = 0 ∧ ∃ rsp, (stack_init_to_rsp 4096 zero_stack 7).2 = some rsp ∧ rsp % 16 = 8 :=
  ⟨by decide, C1_rsp_call_aligned 4096 zero_stack 7 (by decide)⟩

/-- C8: for every stack whose base address is 32-byte aligned, the returned
stack pointer satisfies `rsp % 32 = 24`, that is, `rsp + 8` is a multiple of
32. -/
theorem C8_rsp_ymm_aligned (s : Nat) (st : stack) (exit_fn : Nat) (h : s % 32 = 0) :
    ∃ rsp, (stack_init_to_rsp s st exit_fn).2 = some rsp ∧ rsp % 32 = 24
      ∧ (rsp + 8) % 32 = 0 := by
  have h8 : top_rsp s % 16 = 8 := by rw [top_rsp_mod16]; omega
  have h24 : top_rsp s % 32 = 24 := by rw [top_rsp_eq]; omega
  exact ⟨top_rsp s, by rw [stack_init_to_rsp_snd, if_pos h8], h24, by omega⟩

theorem C8_rsp_ymm_aligned_witness :
    8192 % 32 = 0 ∧ ∃ rsp, (stack_init_to_rsp 8192 zero_stack 7).2 = some rsp ∧ rsp % 32 = 24
      ∧ (rsp + 8) % 32 = 0 :=
  ⟨by decide, C8_rsp_ymm_aligned 8192 zero_stack 7 (by decide)⟩

/-- C10: for every base address, with the address reduced modulo `2 ^ 64`, the
stack pointer the function computes satisfies `rsp % 16 = (s + 8) % 16`; the
assertion passes, and that pointer is returned, exactly when the base is
16-byte aligned; a base with `s % 16 = 8` makes the assertion fail. -/
theorem C10_assert_iff_aligned (s : Nat) (st : stack) (exit_fn : Nat) :
    top_rsp s % 16 = (s + 8) % 16
    ∧ (top_rsp s % 16 = 8 ↔ s % 16 = 0)
    ∧ (stack_init_to_rsp s st exit_fn).2 = (if s % 16 = 0 then some (top_rsp s) else none)
    ∧ ((∃ rsp, (stack_init_to_rsp s st exit_fn).2 = some rsp) ↔ s % 16 = 0)
    ∧ (s % 16 = 8 → (stack_init_to_rsp s st exit_fn).2 = none) := by
  have hm := top_rsp_mod16 s
  have hiff : top_rsp s % 16 = 8 ↔ s % 16 = 0 := by omega
  have hres : (stack_init_to_rsp s st exit_fn).2
      = (if s % 16 = 0 then some (top_rsp s) else none) := by
    rw [stack_init_to_rsp_snd]
    by_cases h : s % 16 = 0
    · rw [if_pos h, if_pos (hiff.2 h)]
    · rw [if_neg h, if_neg (fun h8 => h (hiff.1 h8))]
  refine ⟨hm, hiff, hres, ?_, ?_⟩
  · rw [hres]
    by_cases h : s % 16 = 0 <;> simp [h]
  · intro h8
    rw [hres, if_neg (by omega)]

theorem C10_assert_iff_aligned_witness :
    4104 % 16 = 8 ∧ (stack_init_to_rsp 4104 zero_stack 7).2 = none :=
  ⟨by decide, (C10_assert_iff_aligned 4104 zero_stack 7).2.2.2.2 (by decide)⟩

/-- C7: for every stack and exit handler, the contents after
`stack_init_to_rsp` differ from the contents before only at
`usable[STACK_PTR_SIZE - 1]`: every usable word of index at most
`STACK_PTR_SIZE - 2` and every guard word is unchanged, whether or not the
assertion passes. -/
theorem C7_init_frame (s : Nat) (st : stack) (exit_fn : Nat) :
    (∀ i : Fin STACK_PTR_SIZE, i ≠ top_index →
        (stack_init_to_rsp s st exit_fn).1.usable i = st.usable i)
    ∧ (∀ i : Fin STACK_PTR_SIZE, i.val + 2 ≤ STACK_PTR_SIZE →
        (stack_init_to_rsp s st exit_fn).1.usable i = st.usable i)
    ∧ (∀ j : Fin GUARD_PTR_SIZE, (stack_init_to_rsp s st exit_fn).1.guard j = st.guard j)
    ∧ (∀ i : Fin STACK_PTR_SIZE, (stack_init_to_rsp s st exit_fn).1.usable i ≠ st.usable i →
        i.val = STACK_PTR_SIZE - 1) := by
  have hne : ∀ i : Fin STACK_PTR_SIZE, i ≠ top_index →
      (stack_init_to_rsp s st exit_fn).1.usable i = st.usable i := by
    intro i hi
    rw [stack_init_to_rsp_fst]
    exact Function.update_noteq hi _ _
  refine ⟨hne, ?_, fun j => rfl, ?_⟩
  · intro i hi
    apply hne
    intro h
    have hv : i.val = STACK_PTR_SIZE - 1 := by rw [h]; rfl
    have hp := STACK_PTR_SIZE_pos
    omega
  · intro i hi
    by_contra hv
    apply hi
    apply hne
    intro h
    exact hv (by rw [h]; rfl)

theorem top_rsp_of_fits (s : Nat) (hfit : s + sizeof_stack ≤ UINT64_MOD) :
    top_rsp s = usable_addr s (STACK_PTR_SIZE - 1) ∧ usable_addr s (STACK_PTR_SIZE - 1) = s + 131064 := by
  have hsz : sizeof_stack = 262144 := by decide
  have hmod : UINT64_MOD = 2 ^ 64 := rfl
  have ha : usable_addr s (STACK_PTR_SIZE - 1) = s + 131064 := by
    simp [usable_addr, offsetof_usable, STACK_PTR_SIZE, KB, sizeof_uintptr_t]
  refine ⟨?_, ha⟩
  rw [ha, top_rsp_eq]
  apply Nat.mod_eq_of_lt
  omega

theorem stack_load_top (s : Nat) (st : stack) :
    stack_load s st (usable_addr s (STACK_PTR_SIZE - 1)) = some (st.usable top_index) := by
  have hoff : usable_addr s (STACK_PTR_SIZE - 1) - (s + offsetof_usable)
      = (STACK_PTR_SIZE - 1) * sizeof_uintptr_t := by
    unfold usable_addr
    omega
  have h8 : 0 < sizeof_uintptr_t := by decide
  have hcond : s + offsetof_usable ≤ usable_addr s (STACK_PTR_SIZE - 1)
      ∧ (usable_addr s (STACK_PTR_SIZE - 1) - (s + offsetof_usable)) % sizeof_uintptr_t = 0
      ∧ (usable_addr s (STACK_PTR_SIZE - 1) - (s + offsetof_usable)) / sizeof_uintptr_t
          < STACK_PTR_SIZE := by
    refine ⟨by unfold usable_addr; omega, ?_, ?_⟩
    · rw [hoff]; exact Nat.mul_mod_left _ _
    · rw [hoff, Nat.mul_div_cancel _ h8]; exact STACK_PTR_SIZE_pos
  unfold stack_load
  rw [dif_pos hcond]
  congr 2
  apply Fin.ext
  show (usable_addr s (STACK_PTR_SIZE - 1) - (s + offsetof_usable)) / sizeof_uintptr_t
    = STACK_PTR_SIZE - 1
  rw [hoff, Nat.mul_div_cancel _ h8]

/-- C2, as amended: for every stack lying in the 64-bit address space at base
address `s`, and every exit handler, `stack_init_to_rsp` stores `exit_fn` in
`usable[STACK_PTR_SIZE - 1]`, the word at address
`s + RUNTIME_STACK_SIZE - 8 = s + 131064`, and the word read at that address in
the resulting stack is `exit_fn`; the call returns that address when the base
is 16-byte aligned, and otherwise its assertion fails and nothing is
returned. -/
theorem C2_exit_fn_at_returned_rsp (s : Nat) (st : stack) (exit_fn : Nat)
    (hfit : s + sizeof_stack ≤ UINT64_MOD) :
    (stack_init_to_rsp s st exit_fn).1.usable top_index = exit_fn
    ∧ usable_addr s top_index.val = s + RUNTIME_STACK_SIZE - 8
    ∧ s + RUNTIME_STACK_SIZE - 8 = s + 131064
    ∧ stack_load s (stack_init_to_rsp s st exit_fn).1 (s + 131064) = some exit_fn
    ∧ (stack_init_to_rsp s st exit_fn).2
        = (if s % 16 = 0 then some (usable_addr s top_index.val) else none) := by
  obtain ⟨htop, haddr⟩ := top_rsp_of_fits s hfit
  have hsize : RUNTIME_STACK_SIZE = 131072 := by decide
  have hst := stack_init_to_rsp_top s st exit_fn
  have hm := top_rsp_mod16 s
  have hidx : top_index.val = STACK_PTR_SIZE - 1 := rfl
  rw [hidx]
  refine ⟨hst, by omega, by omega, ?_, ?_⟩
  · rw [← haddr, stack_load_top, hst]
  · rw [stack_init_to_rsp_snd, htop]
    by_cases hal : s % 16 = 0
    · rw [if_pos hal, if_pos (by omega)]
    · rw [if_neg hal, if_neg (by omega)]

theorem C2_exit_fn_at_returned_rsp_witness :
    4096 + sizeof_stack ≤ UINT64_MOD
    ∧ (stack_init_to_rsp 4096 zero_stack 7).1.usable top_index = 7
    ∧ stack_load 4096 (stack_init_to_rsp 4096 zero_stack 7).1 (4096 + 131064) = some 7
    ∧ (stack_init_to_rsp 4096 zero_stack 7).2
        = (if 4096 % 16 = 0 then some (usable_addr 4096 top_index.val) else none) :=
  ⟨by decide,
    (C2_exit_fn_at_returned_rsp 4096 zero_stack 7 (by decide)).1,
    (C2_exit_fn_at_returned_rsp 4096 zero_stack 7 (by decide)).2.2.2.1,
    (C2_exit_fn_at_returned_rsp 4096 zero_stack 7 (by decide)).2.2.2.2⟩

/-- C2 as stated fails at a stack whose base is word aligned but not 16-byte
aligned: at base 4104 the store is made, the assertion fails, and no address is
returned. -/
theorem C2_unaligned_base_counterexample :
    4104 % sizeof_uintptr_t = 0 ∧ 4104 + sizeof_stack ≤ UINT64_MOD
    ∧ (stack_init_to_rsp 4104 zero_stack 7).1.usable top_index = 7
    ∧ (stack_init_to_rsp 4104 zero_stack 7).2 = none
    ∧ ¬ (stack_init_to_rsp 4104 zero_stack 7).2 = some (4104 + 131064) := by
  have hnone : (stack_init_to_rsp 4104 zero_stack 7).2 = none := by
    rw [stack_init_to_rsp_snd, top_rsp_eq]; decide
  refine ⟨by decide, by decide, ?_, hnone, ?_⟩
  · exact stack_init_to_rsp_top _ _ _
  · rw [hnone]; exact fun h => Option.noConfusion h

/-- C9, as amended: for every stack lying in the 64-bit address space and every
exit handler, a stack pointer returned by `stack_init_to_rsp` is the address of
the word in which `exit_fn` is stored, not an address below it: the word at
`rsp` is `exit_fn`, and `rsp` is the last word of the usable area, so it lies
inside it; a stack pointer is returned whenever the base is 16-byte aligned. -/
theorem C9_rsp_is_sentinel_word (s : Nat) (st : stack) (exit_fn : Nat)
    (hfit : s + sizeof_stack ≤ UINT64_MOD) :
    (s % 16 = 0 → ∃ rsp, (stack_init_to_rsp s st exit_fn).2 = some rsp)
    ∧ ∀ rsp, (stack_init_to_rsp s st exit_fn).2 = some rsp →
        rsp = usable_addr s top_index.val
        ∧ (stack_init_to_rsp s st exit_fn).1.usable top_index = exit_fn
        ∧ stack_load s (stack_init_to_rsp s st exit_fn).1 rsp = some exit_fn
        ∧ s + offsetof_usable ≤ rsp
        ∧ rsp + sizeof_uintptr_t = s + offsetof_usable + RUNTIME_STACK_SIZE := by
  obtain ⟨htop, haddr⟩ := top_rsp_of_fits s hfit
  have hsize : RUNTIME_STACK_SIZE = 131072 := by decide
  have hw : sizeof_uintptr_t = 8 := rfl
  have ho : offsetof_usable = 0 := rfl
  have hst : (stack_init_to_rsp s st exit_fn).1.usable top_index = exit_fn := by
    exact stack_init_to_rsp_top _ _ _
  constructor
  · intro hal
    have h8 : top_rsp s % 16 = 8 := by rw [top_rsp_mod16]; omega
    exact ⟨top_rsp s, by rw [stack_init_to_rsp_snd, if_pos h8]⟩
  · intro rsp hret
    rw [stack_init_to_rsp_snd] at hret
    by_cases h8 : top_rsp s % 16 = 8
    · rw [if_pos h8] at hret
      have hr : rsp = usable_addr s (STACK_PTR_SIZE - 1) := by
        rw [← htop]; exact (Option.some.inj hret).symm
      refine ⟨hr, hst, ?_, by omega, by omega⟩
      rw [hr, stack_load_top, hst]
    · rw [if_neg h8] at hret
      exact Option.noConfusion hret

theorem C9_rsp_is_sentinel_word_witness :
    4096 + sizeof_stack ≤ UINT64_MOD
    ∧ (stack_init_to_rsp 4096 zero_stack 7).2 = some 135160
    ∧ 135160 = usable_addr 4096 top_index.val
    ∧ stack_load 4096 (stack_init_to_rsp 4096 zero_stack 7).1 135160 = some 7 :=
  have hret : (stack_init_to_rsp 4096 zero_stack 7).2 = some 135160 := by
    rw [stack_init_to_rsp_snd, top_rsp_eq]; decide
  ⟨by decide, hret,
    ((C9_rsp_is_sentinel_word 4096 zero_stack 7 (by decide)).2 135160 hret).1,
    ((C9_rsp_is_sentinel_word 4096 zero_stack 7 (by decide)).2 135160 hret).2.2.1⟩

/-- C9 as stated fails: at the 16-byte aligned base 4096 the handler is stored
in the word at address 135160 and the returned stack pointer is 135160 itself,
so no returned stack pointer lies below the word that holds `exit_fn`. -/
theorem C9_not_below_sentinel_counterexample :
    (stack_init_to_rsp 4096 zero_stack 7).2 = some 135160
    ∧ (stack_init_to_rsp 4096 zero_stack 7).1.usable top_index = 7
    ∧ usable_addr 4096 top_index.val = 135160
    ∧ ¬ ∃ rsp, (stack_init_to_rsp 4096 zero_stack 7).2 = some rsp
          ∧ rsp < usable_addr 4096 top_index.val := by
  have hret : (stack_init_to_rsp 4096 zero_stack 7).2 = some 135160 := by
    rw [stack_init_to_rsp_snd, top_rsp_eq]; decide
  have haddr : usable_addr 4096 top_index.val = 135160 := by decide
  refine ⟨hret, ?_, haddr, ?_⟩
  · exact stack_init_to_rsp_top _ _ _
  · rintro ⟨rsp, h1, h2⟩
    rw [hret] at h1
    have := Option.some.inj h1
    omega

theorem member_get_set (f g : tf_field) (tf : thread_tf) (v : Nat) :
    (member g).get ((member f).set tf v) = if g = f then v else (member g).get tf := by
  cases f <;> cases g <;> rfl

theorem ARG_eq_member (i : Fin 6) : ARG i = member (sysv_arg_register i) := by
  fin_cases i <;> rfl

/-- C4: for every trap frame and every `i` from 0 to 5, `ARGi` is the member
holding the `i`-th System V integer argument register, in the order rdi, rsi,
rdx, rcx, r8, r9; the six members are pairwise distinct and distinct from rax,
rip and rsp; reading `ARGi` after storing `v` through it yields `v`, and the
store leaves the other sixteen members of the trap frame unchanged. -/
theorem C4_arg_accessors (tf : thread_tf) (v : Nat) (i : Fin 6) :
    ARG i = member (sysv_arg_register i)
    ∧ List.ofFn sysv_arg_register = [.rdi, .rsi, .rdx, .rcx, .r8, .r9]
    ∧ (∀ j : Fin 6, sysv_arg_register i = sysv_arg_register j → i = j)
    ∧ sysv_arg_register i ≠ .rax ∧ sysv_arg_register i ≠ .rip
    ∧ sysv_arg_register i ≠ .rsp
    ∧ (ARG i).get ((ARG i).set tf v) = v
    ∧ (∀ j : Fin 6, j ≠ i → (ARG j).get ((ARG i).set tf v) = (ARG j).get tf)
    ∧ (∀ f : tf_field, f ≠ sysv_arg_register i →
        (member f).get ((ARG i).set tf v) = (member f).get tf)
    ∧ (tf_fields.filter fun f => decide (f ≠ sysv_arg_register i)).length = 16
    ∧ (∀ f : tf_field, f ∈ tf_fields) := by
  have hinj : ∀ a b : Fin 6, sysv_arg_register a = sysv_arg_register b → a = b := by decide
  refine ⟨ARG_eq_member i, by decide, hinj i, ?_, ?_, ?_, ?_, ?_, ?_, ?_, ?_⟩
  · revert i; decide
  · revert i; decide
  · revert i; decide
  · rw [ARG_eq_member, member_get_set, if_pos rfl]
  · intro j hj
    rw [ARG_eq_member i, ARG_eq_member j, member_get_set, if_neg]
    exact fun h => hj (hinj j i h)
  · intro f hf
    rw [ARG_eq_member i, member_get_set, if_neg hf]
  · revert i; decide
  · intro f; cases f <;> decide

/-- C5: `stack_free(s)` is exactly `tcache_free` applied to the calling
context's `stack_pt` and the handle `s`, and `stack_alloc()` is exactly
`tcache_alloc` applied to the same `stack_pt`: for every allocator, the state
after `stack_free`, and so the contents of `s` under any way of observing them,
is the state that `tcache_free` leaves, and `stack_alloc` returns the handle and
the state that `tcache_alloc` returns. -/
theorem C5_wrappers_pass_through (W : Type) (env : runtime_env W) (ctx s : Nat) (w : W) :
    stack_free env ctx s w = env.tcache_free (env.stack_pt ctx) s w
    ∧ (∀ (α : Type) (contents : W → Nat → α),
        contents (stack_free env ctx s w) s
          = contents (env.tcache_free (env.stack_pt ctx) s w) s)
    ∧ stack_alloc env ctx w = env.tcache_alloc (env.stack_pt ctx) w
    ∧ (stack_alloc env ctx w).1 = (env.tcache_alloc (env.stack_pt ctx) w).1
    ∧ (stack_alloc env ctx w).2 = (env.tcache_alloc (env.stack_pt ctx) w).2 :=
  ⟨rfl, fun _ _ => rfl, rfl, rfl, rfl⟩

/-! ## No double allocation -/

theorem stacks_disjoint_symm {a b : Nat} (h : stacks_disjoint a b) : stacks_disjoint b a :=
  Or.symm h

theorem stacks_disjoint_ne {a b : Nat} (h : stacks_disjoint a b) : a ≠ b := by
  have hsz : sizeof_stack = 262144 := by decide
  unfold stacks_disjoint at h
  omega

theorem manager_inv_init (free_stacks : List Nat)
    (h : free_stacks.Pairwise stacks_disjoint) : manager_inv (manager_init free_stacks) where
  live := List.Pairwise.nil
  pool := h
  cache := fun _ => List.Pairwise.nil
  live_pool := fun a ha => absurd ha (List.not_mem_nil a)
  live_cache := fun _ a ha => absurd ha (List.not_mem_nil a)
  cache_pool := fun _ a ha => absurd ha (List.not_mem_nil a)
  cache_cache := fun _ _ _ a ha => absurd ha (List.not_mem_nil a)

theorem mem_update_of_subset {c : Nat → List Nat} {p q : Nat} {t : List Nat} {b : Nat}
    (hsub : ∀ y ∈ t, y ∈ c p) (hb : b ∈ Function.update c p t q) : b ∈ c q := by
  by_cases hq : q = p
  · subst hq
    rw [Function.update_same] at hb
    exact hsub b hb
  · rw [Function.update_noteq hq] at hb
    exact hb

theorem manager_inv_take_cache {x : manager_state} (hx : manager_inv x) {p h : Nat}
    {t : List Nat} (hc : x.w.cache p = h :: t) :
    manager_inv ⟨{ x.w with cache := Function.update x.w.cache p t }, h :: x.live⟩ := by
  have hh : h ∈ x.w.cache p := by rw [hc]; exact List.mem_cons_self h t
  have hsub : ∀ y ∈ t, y ∈ x.w.cache p := fun y hy => by
    rw [hc]; exact List.mem_cons_of_mem h hy
  have hpc : (h :: t).Pairwise stacks_disjoint := hc ▸ hx.cache p
  rw [List.pairwise_cons] at hpc
  refine ⟨?_, hx.pool, ?_, ?_, ?_, ?_, ?_⟩
  · exact List.pairwise_cons.2
      ⟨fun a ha => stacks_disjoint_symm (hx.live_cache p a ha h hh), hx.live⟩
  · intro q
    by_cases hq : q = p
    · subst hq
      show (Function.update x.w.cache q t q).Pairwise stacks_disjoint
      rw [Function.update_same]
      exact hpc.2
    · show (Function.update x.w.cache p t q).Pairwise stacks_disjoint
      rw [Function.update_noteq hq]
      exact hx.cache q
  · intro a ha b hb
    rcases List.mem_cons.1 ha with rfl | ha
    · exact hx.cache_pool p a hh b hb
    · exact hx.live_pool a ha b hb
  · intro q a ha b hb
    rcases List.mem_cons.1 ha with rfl | ha
    · by_cases hq : q = p
      · subst hq
        have hb1 : b ∈ Function.update x.w.cache q t q := hb
        rw [Function.update_same] at hb1
        exact hpc.1 b hb1
      · have hb1 : b ∈ Function.update x.w.cache p t q := hb
        rw [Function.update_noteq hq] at hb1
        exact hx.cache_cache p q (Ne.symm hq) a hh b hb1
    · exact hx.live_cache q a ha b (mem_update_of_subset hsub hb)
  · intro q a ha b hb
    exact hx.cache_pool q a (mem_update_of_subset hsub ha) b hb
  · intro q r hqr a ha b hb
    exact hx.cache_cache q r hqr a (mem_update_of_subset hsub ha) b
      (mem_update_of_subset hsub hb)

theorem manager_inv_take_pool {x : manager_state} (hx : manager_inv x) {h : Nat}
    {t : List Nat} (hc : x.w.pool = h :: t) :
    manager_inv ⟨{ x.w with pool := t }, h :: x.live⟩ := by
  have hh : h ∈ x.w.pool := by rw [hc]; exact List.mem_cons_self h t
  have hsub : ∀ y ∈ t, y ∈ x.w.pool := fun y hy => by
    rw [hc]; exact List.mem_cons_of_mem h hy
  have hpc : (h :: t).Pairwise stacks_disjoint := hc ▸ hx.pool
  rw [List.pairwise_cons] at hpc
  refine ⟨?_, hpc.2, hx.cache, ?_, ?_, ?_, hx.cache_cache⟩
  · exact List.pairwise_cons.2
      ⟨fun a ha => stacks_disjoint_symm (hx.live_pool a ha h hh), hx.live⟩
  · intro a ha b hb
    rcases List.mem_cons.1 ha with rfl | ha
    · exact hpc.1 b hb
    · exact hx.live_pool a ha b (hsub b hb)
  · intro q a ha b hb
    rcases List.mem_cons.1 ha with rfl | ha
    · exact stacks_disjoint_symm (hx.cache_pool q b hb a hh)
    · exact hx.live_cache q a ha b hb
  · intro q a ha b hb
    exact hx.cache_pool q a ha b (hsub b hb)

theorem manager_live_nodup {x : manager_state} (hx : manager_inv x) : x.live.Nodup :=
  List.Pairwise.imp (fun h => stacks_disjoint_ne h) hx.live

theorem mem_update_cons {c : Nat → List Nat} {p q s b : Nat}
    (hb : b ∈ Function.update c p (s :: c p) q) : (b = s ∧ q = p) ∨ b ∈ c q := by
  by_cases hq : q = p
  · subst hq
    rw [Function.update_same] at hb
    rcases List.mem_cons.1 hb with h | h
    · exact Or.inl ⟨h, rfl⟩
    · exact Or.inr h
  · rw [Function.update_noteq hq] at hb
    exact Or.inr hb

theorem manager_inv_give_back {x : manager_state} (hx : manager_inv x) {p s : Nat}
    (hs : s ∈ x.live) :
    manager_inv ⟨{ x.w with cache := Function.update x.w.cache p (s :: x.w.cache p) },
      x.live.erase s⟩ := by
  have hnd := manager_live_nodup hx
  have hsym : Symmetric stacks_disjoint := fun _ _ h => stacks_disjoint_symm h
  have hlive : ∀ a, a ∈ x.live.erase s → a ∈ x.live := fun a ha => List.mem_of_mem_erase ha
  have hfresh : ∀ a, a ∈ x.live.erase s → stacks_disjoint a s := fun a ha =>
    hx.live.forall hsym (hlive a ha) hs ((hnd.mem_erase_iff.1 ha).1)
  refine ⟨hx.live.sublist (List.erase_sublist s x.live), hx.pool, ?_, ?_, ?_, ?_, ?_⟩
  · intro q
    by_cases hq : q = p
    · subst hq
      show (Function.update x.w.cache q (s :: x.w.cache q) q).Pairwise stacks_disjoint
      rw [Function.update_same]
      exact List.pairwise_cons.2 ⟨fun b hb => hx.live_cache q s hs b hb, hx.cache q⟩
    · show (Function.update x.w.cache p (s :: x.w.cache p) q).Pairwise stacks_disjoint
      rw [Function.update_noteq hq]
      exact hx.cache q
  · intro a ha b hb
    exact hx.live_pool a (hlive a ha) b hb
  · intro q a ha b hb
    rcases mem_update_cons hb with ⟨rfl, _⟩ | hb
    · exact hfresh a ha
    · exact hx.live_cache q a (hlive a ha) b hb
  · intro q a ha b hb
    rcases mem_update_cons ha with ⟨rfl, _⟩ | ha
    · exact hx.live_pool a hs b hb
    · exact hx.cache_pool q a ha b hb
  · intro q r hqr a ha b hb
    rcases mem_update_cons ha with ⟨has, hqp⟩ | ha1
    · rcases mem_update_cons hb with ⟨_, hrp⟩ | hb1
      · exact absurd (hqp.trans hrp.symm) hqr
      · rw [has]
        exact hx.live_cache r s hs b hb1
    · rcases mem_update_cons hb with ⟨hbs, _⟩ | hb1
      · rw [hbs]
        exact stacks_disjoint_symm (hx.live_cache q s hs a ha1)
      · exact hx.cache_cache q r hqr a ha1 b hb1

theorem manager_step_alloc_cache (stack_pt : Nat → Nat) (x : manager_state) (ctx h : Nat)
    (t : List Nat) (hc : x.w.cache (stack_pt ctx) = h :: t) :
    manager_step stack_pt x (.alloc ctx)
      = ⟨{ x.w with cache := Function.update x.w.cache (stack_pt ctx) t }, h :: x.live⟩ := by
  simp [manager_step, stack_alloc, pool_env, tcache_alloc, hc]

theorem manager_step_alloc_pool (stack_pt : Nat → Nat) (x : manager_state) (ctx h : Nat)
    (t : List Nat) (hc : x.w.cache (stack_pt ctx) = []) (hp : x.w.pool = h :: t) :
    manager_step stack_pt x (.alloc ctx) = ⟨{ x.w with pool := t }, h :: x.live⟩ := by
  simp [manager_step, stack_alloc, pool_env, tcache_alloc, hc, hp]

theorem manager_step_alloc_none (stack_pt : Nat → Nat) (x : manager_state) (ctx : Nat)
    (hc : x.w.cache (stack_pt ctx) = []) (hp : x.w.pool = []) :
    manager_step stack_pt x (.alloc ctx) = x := by
  simp [manager_step, stack_alloc, pool_env, tcache_alloc, hc, hp]

theorem manager_inv_step (stack_pt : Nat → Nat) {x : manager_state} (hx : manager_inv x)
    (c : stack_call) (hc : disciplined stack_pt x [c] = true) :
    manager_inv (manager_step stack_pt x c) := by
  cases c with
  | alloc ctx =>
    cases hcache : x.w.cache (stack_pt ctx) with
    | cons h t =>
      rw [manager_step_alloc_cache stack_pt x ctx h t hcache]
      exact manager_inv_take_cache hx hcache
    | nil =>
      cases hpool : x.w.pool with
      | cons h t =>
        rw [manager_step_alloc_pool stack_pt x ctx h t hcache hpool]
        exact manager_inv_take_pool hx hpool
      | nil =>
        rw [manager_step_alloc_none stack_pt x ctx hcache hpool]
        exact hx
  | free ctx s =>
    have hs : s ∈ x.live := by
      simp only [disciplined, Bool.and_true, decide_eq_true_eq] at hc
      exact hc
    exact manager_inv_give_back hx hs

theorem manager_inv_run (stack_pt : Nat → Nat) (calls : List stack_call) :
    ∀ x : manager_state, manager_inv x → disciplined stack_pt x calls = true →
      manager_inv (manager_run stack_pt x calls) := by
  induction calls with
  | nil => intro x hx _; exact hx
  | cons c rest ih =>
    intro x hx hd
    have hsplit : disciplined stack_pt x [c] = true
        ∧ disciplined stack_pt (manager_step stack_pt x c) rest = true := by
      cases c with
      | alloc ctx => exact ⟨rfl, hd⟩
      | free ctx s =>
        simp only [disciplined, Bool.and_eq_true, decide_eq_true_eq] at hd
        simp only [disciplined, Bool.and_true, decide_eq_true_eq]
        exact ⟨hd.1, hd.2⟩
    exact ih _ (manager_inv_step stack_pt hx c hsplit.1) hsplit.2

theorem stack_alloc_fresh (stack_pt : Nat → Nat) {x : manager_state} (hx : manager_inv x)
    (ctx s : Nat) (h : (stack_alloc (pool_env stack_pt) ctx x.w).1 = some s) :
    ∀ l ∈ x.live, stacks_disjoint s l := by
  unfold stack_alloc pool_env tcache_alloc at h
  simp only at h
  intro l hl
  cases hcache : x.w.cache (stack_pt ctx) with
  | cons a t =>
    rw [hcache] at h
    have hsa : a = s := Option.some.inj h
    subst hsa
    exact stacks_disjoint_symm
      (hx.live_cache (stack_pt ctx) l hl a (by rw [hcache]; exact List.mem_cons_self a t))
  | nil =>
    rw [hcache] at h
    cases hpool : x.w.pool with
    | cons a t =>
      rw [hpool] at h
      have hsa : a = s := Option.some.inj h
      subst hsa
      exact stacks_disjoint_symm
        (hx.live_pool l hl a (by rw [hpool]; exact List.mem_cons_self a t))
    | nil =>
      rw [hpool] at h
      exact Option.noConfusion h

theorem disciplined_append_left (stack_pt : Nat → Nat) (before after : List stack_call) :
    ∀ x : manager_state, disciplined stack_pt x (before ++ after) = true →
      disciplined stack_pt x before = true := by
  induction before with
  | nil => intro x _; rfl
  | cons c rest ih =>
    intro x hd
    cases c with
    | alloc ctx => exact ih _ hd
    | free ctx s =>
      simp only [List.cons_append, disciplined, Bool.and_eq_true, decide_eq_true_eq] at hd
      simp only [disciplined, Bool.and_eq_true, decide_eq_true_eq]
      exact ⟨hd.1, ih _ hd.2⟩

/-- C6: over the allocator modelled from the specification, started with a
global pool of pairwise non-overlapping stacks, take any sequence of
`stack_alloc` and `stack_free` calls in which each `stack_free` is given a
handle that is live at that point; at every point of the sequence the live
handles are pairwise distinct and their stacks pairwise non-overlapping, and a
handle that `stack_alloc` returns at that point is not live and its stack
overlaps no live stack. -/
theorem C6_no_double_allocation (stack_pt : Nat → Nat) (free_stacks : List Nat)
    (hpool : free_stacks.Pairwise stacks_disjoint) (before after : List stack_call)
    (hd : disciplined stack_pt (manager_init free_stacks) (before ++ after) = true) :
    (manager_run stack_pt (manager_init free_stacks) before).live.Nodup
    ∧ (manager_run stack_pt (manager_init free_stacks) before).live.Pairwise stacks_disjoint
    ∧ ∀ ctx s,
        (stack_alloc (pool_env stack_pt) ctx
          (manager_run stack_pt (manager_init free_stacks) before).w).1 = some s →
        s ∉ (manager_run stack_pt (manager_init free_stacks) before).live
        ∧ ∀ l ∈ (manager_run stack_pt (manager_init free_stacks) before).live,
            stacks_disjoint s l := by
  have hinv := manager_inv_run stack_pt before _ (manager_inv_init free_stacks hpool)
    (disciplined_append_left stack_pt before after _ hd)
  refine ⟨manager_live_nodup hinv, hinv.live, ?_⟩
  intro ctx s hs
  have hfresh := stack_alloc_fresh stack_pt hinv ctx s hs
  exact ⟨fun hmem => stacks_disjoint_ne (hfresh s hmem) rfl, hfresh⟩

theorem C6_no_double_allocation_witness :
    [0, 262144, 524288].Pairwise stacks_disjoint
    ∧ disciplined id (manager_init [0, 262144, 524288])
        ([.alloc 0, .alloc 1, .free 0 262144] ++ [.alloc 0, .free 1 0]) = true
    ∧ (manager_run id (manager_init [0, 262144, 524288])
        [.alloc 0, .alloc 1, .free 0 262144]).live = [0]
    ∧ (stack_alloc (pool_env id) 0 (manager_run id (manager_init [0, 262144, 524288])
        [.alloc 0, .alloc 1, .free 0 262144]).w).1 = some 262144
    ∧ 262144 ∉ (manager_run id (manager_init [0, 262144, 524288])
        [.alloc 0, .alloc 1, .free 0 262144]).live :=
  ⟨by decide, by decide, by decide, by decide,
    ((C6_no_double_allocation id [0, 262144, 524288] (by decide)
      [.alloc 0, .alloc 1, .free 0 262144] [.alloc 0, .free 1 0] (by decide)).2.2
        0 262144 (by decide)).1⟩

end Runtime
